import Mathlib

/-!
Verification of the Wordly single-page dictionary application (src/app.js).

The JavaScript source is shallowly embedded in Lean: JS strings are modelled
as Lean `String` where only equality is used, and character-by-character
(on `String.data`) where trimming and lower-casing matter; JS arrays are
`List`; a thrown JS `Error` object is a record of its `name` and `message`
fields; the `localStorage` collaborator is an association list from keys to
the stored text, and the JSON codec (an external platform collaborator) is
an arbitrary stringify/parse pair satisfying its round-trip contract.
Network and timer behaviour is modelled by the possible outcomes of one
`fetch` call: a server response with a status and a parsed-or-malformed
body, a transport failure, or an abort fired by the timeout timer.
-/

namespace Wordly

/-! ### Configuration constants (API_CONFIG and APP_CONSTANTS in src/app.js) -/

/-- API_CONFIG.TIMEOUT: the fixed request timeout in milliseconds. -/
def API_TIMEOUT_MS : Nat := 10000

/-- APP_CONSTANTS.MAX_HISTORY_ITEMS: capacity of the search-history list. -/
def MAX_HISTORY_ITEMS : Nat := 50

/-- APP_CONSTANTS.MAX_FAVORITES_ITEMS: capacity of the favorites list. -/
def MAX_FAVORITES_ITEMS : Nat := 100

/-! ### Character-level model of the JS string operations used by searchWord -/

/-- Whitespace predicate used by the model of the JS `trim` method. -/
def jsWhitespace (c : Char) : Bool := c.isWhitespace

/-- Model of JS `trim` limited to removing leading whitespace. -/
def jsTrimLeft (s : List Char) : List Char := s.dropWhile jsWhitespace

/-- Model of JS `trim` limited to removing trailing whitespace. -/
def jsTrimRight (s : List Char) : List Char :=
  (s.reverse.dropWhile jsWhitespace).reverse

/-- Model of the JS `String.prototype.trim` method on character lists. -/
def jsTrimChars (s : List Char) : List Char := jsTrimRight (jsTrimLeft s)

/-- Model of the JS `String.prototype.toLowerCase` method on one character
(the application only feeds it dictionary words, for which the ASCII
letter range is the relevant one). -/
def jsLowerChar : Char → Char
  | 'A' => 'a' | 'B' => 'b' | 'C' => 'c' | 'D' => 'd' | 'E' => 'e' | 'F' => 'f'
  | 'G' => 'g' | 'H' => 'h' | 'I' => 'i' | 'J' => 'j' | 'K' => 'k' | 'L' => 'l'
  | 'M' => 'm' | 'N' => 'n' | 'O' => 'o' | 'P' => 'p' | 'Q' => 'q' | 'R' => 'r'
  | 'S' => 's' | 'T' => 't' | 'U' => 'u' | 'V' => 'v' | 'W' => 'w' | 'X' => 'x'
  | 'Y' => 'y' | 'Z' => 'z'
  | c => c

/-- Model of `word.trim()` on Lean strings. -/
def jsTrim (s : String) : String := String.mk (jsTrimChars s.data)

/-- Model of `word.toLowerCase()` on Lean strings. -/
def jsToLower (s : String) : String := String.mk (s.data.map jsLowerChar)

/-! ### Data model of a lexical entry (the JSON shape consumed by the app) -/

/-- One definition object inside a meaning (fields used by src/app.js). -/
structure Definition where
  definition : String
  usageExample : Option String
  synonyms : List String
  antonyms : List String
deriving DecidableEq

/-- One meaning object of an entry (fields used by src/app.js). -/
structure Meaning where
  partOfSpeech : String
  definitions : List Definition
  synonyms : List String
  antonyms : List String
deriving DecidableEq

/-- One lexical entry as returned by the dictionary API (fields that the
lookup pipeline reads). -/
structure Entry where
  word : String
  meanings : List Meaning
deriving DecidableEq

/-! ### DictionaryAPI.fetchWord (src/app.js lines 235-270) -/

/-- A thrown JS Error object, reduced to the two fields the code inspects. -/
structure JsError where
  name : String
  message : String
deriving DecidableEq

/-- The possible outcomes of the single `fetch` call issued per lookup:
a server response (with HTTP status and a body that either parsed into a
list of entries or was malformed JSON), a transport-level failure (DNS,
connection refused), or the abort fired by the 10 second timeout timer,
which cancels the in-flight request. -/
inductive HttpOutcome where
  | response (status : Nat) (body : Option (List Entry))
  | transportFailure
  | aborted
deriving DecidableEq

/-- Model of `response.ok`: HTTP status in the range 200-299. -/
def responseOk (status : Nat) : Bool := 200 ≤ status && status ≤ 299

/-- The try block of DictionaryAPI.fetchWord: checks `response.ok`, throws
WORD_NOT_FOUND on status 404 and API_ERROR on any other non-success
status, otherwise parses the JSON body (a parse failure throws a
SyntaxError) and returns its first element, which is `undefined` (here
`none`) when the array is empty. A transport failure rejects the fetch
with a TypeError; the timeout abort rejects it with an AbortError. -/
def fetchWordTry (outcome : HttpOutcome) : Except JsError (Option Entry) :=
  match outcome with
  | .aborted => .error ⟨"AbortError", "The operation was aborted"⟩
  | .transportFailure => .error ⟨"TypeError", "Failed to fetch"⟩
  | .response status body =>
      if !responseOk status then
        if status = 404 then .error ⟨"Error", "WORD_NOT_FOUND"⟩
        else .error ⟨"Error", "API_ERROR"⟩
      else
        match body with
        | none => .error ⟨"SyntaxError", "Unexpected end of JSON input"⟩
        | some entries => .ok entries.head?

/-- The catch block of DictionaryAPI.fetchWord: an AbortError becomes
TIMEOUT, a WORD_NOT_FOUND error is rethrown unchanged, and every other
caught error is rethrown as NETWORK_ERROR. -/
def fetchCatch (e : JsError) : JsError :=
  if e.name = "AbortError" then ⟨"Error", "TIMEOUT"⟩
  else if e.message = "WORD_NOT_FOUND" then e
  else ⟨"Error", "NETWORK_ERROR"⟩

/-- DictionaryAPI.fetchWord: the try block with every thrown error routed
through the catch block. -/
def fetchWord (outcome : HttpOutcome) : Except JsError (Option Entry) :=
  match fetchWordTry outcome with
  | .ok v => .ok v
  | .error e => .error (fetchCatch e)

/-! ### Synonym and antonym aggregation (src/app.js lines 294-337) -/

/-- Adding one string to a JS `Set` that is later converted back with
`Array.from`: insertion order is kept and an element already present is
not added again. -/
def addUnique (acc : List String) (s : String) : List String :=
  if s ∈ acc then acc else acc ++ [s]

/-- DictionaryAPI.collectSynonyms: walks the meanings in order, adding the
meaning-level synonyms and then, per definition, the definition-level
synonyms into one insertion-ordered set. -/
def collectSynonyms (meanings : List Meaning) : List String :=
  meanings.foldl
    (fun acc meaning =>
      meaning.definitions.foldl (fun a d => d.synonyms.foldl addUnique a)
        (meaning.synonyms.foldl addUnique acc))
    []

/-- DictionaryAPI.collectAntonyms: same walk as collectSynonyms over the
antonym fields. -/
def collectAntonyms (meanings : List Meaning) : List String :=
  meanings.foldl
    (fun acc meaning =>
      meaning.definitions.foldl (fun a d => d.antonyms.foldl addUnique a)
        (meaning.antonyms.foldl addUnique acc))
    []

/-- The synonym occurrences of a meanings list in traversal order:
per meaning, first the meaning-level synonyms, then the definition-level
ones, across all meanings. -/
def synonymStream (meanings : List Meaning) : List String :=
  meanings.flatMap
    (fun m => m.synonyms ++ m.definitions.flatMap (fun d => d.synonyms))

/-- The antonym occurrences of a meanings list in traversal order. -/
def antonymStream (meanings : List Meaning) : List String :=
  meanings.flatMap
    (fun m => m.antonyms ++ m.definitions.flatMap (fun d => d.antonyms))

/-- Modelled from the spec: deduplicate a list of strings keeping, for each
string, only its first occurrence, in first-seen order. -/
def dedupFirstSeen : List String → List String
  | [] => []
  | x :: xs => x :: dedupFirstSeen (xs.filter (fun y => y ≠ x))
termination_by l => l.length
decreasing_by
  simp only [List.length_cons]
  exact Nat.lt_succ_of_le (List.length_filter_le _ _)

/-! ### StorageManager (src/app.js lines 93-117) and the localStorage and
JSON platform collaborators -/

/-- Model of the localStorage contents: newest binding first. -/
def setItem (store : List (String × String)) (key value : String) :
    List (String × String) :=
  (key, value) :: store

/-- Model of localStorage.getItem: the most recent binding of the key, or
`none` (JS `null`) when the key was never set. -/
def getItem (store : List (String × String)) (key : String) : Option String :=
  (store.find? (fun kv => kv.1 == key)).map (fun kv => kv.2)

/-- Modelled from the spec: the external JSON codec (JSON.stringify and
JSON.parse) for one JSON-serializable value type, as an arbitrary pair of
functions; its contract is stated as hypotheses where needed. -/
structure JsonCodec (α : Type) where
  stringify : α → String
  parse : String → Option α

/-- StorageManager.save: stringify the value and store it under the key. -/
def storageSave {α : Type} (codec : JsonCodec α)
    (store : List (String × String)) (key : String) (value : α) :
    List (String × String) :=
  setItem store key (codec.stringify value)

/-- StorageManager.load: read the key; a missing key (JS `null`) or an
empty stored string is falsy and yields the default, a parse failure is
caught and yields the default, otherwise the parsed value is returned. -/
def storageLoad {α : Type} (codec : JsonCodec α)
    (store : List (String × String)) (key : String) (defaultValue : α) : α :=
  match getItem store key with
  | none => defaultValue
  | some text =>
      if text = "" then defaultValue
      else (codec.parse text).getD defaultValue

/-- A concrete codec for the theme flag (a JSON boolean), used to exhibit
that the codec contract is satisfiable. -/
def boolCodec : JsonCodec Bool :=
  ⟨fun b => if b then "true" else "false",
    fun s =>
      if s = "true" then some true
      else if s = "false" then some false
      else none⟩

/-! ### Bounded collections: history (src/app.js lines 1024-1043) and
favorites (lines 1071-1100) -/

/-- WordlyApp.addToHistory acting on the history list: remove every
occurrence of the word, prepend it, and when the result exceeds the
capacity keep only the first MAX_HISTORY_ITEMS elements. -/
def addToHistory (word : String) (history : List String) : List String :=
  let afterRemove := history.filter (fun w => w ≠ word)
  let afterUnshift := word :: afterRemove
  if MAX_HISTORY_ITEMS < afterUnshift.length then
    afterUnshift.take MAX_HISTORY_ITEMS
  else afterUnshift

/-- A finite sequence of addToHistory calls applied in order. -/
def addAllToHistory (words : List String) (history : List String) :
    List String :=
  words.foldl (fun acc w => addToHistory w acc) history

/-- The user-visible result of WordlyApp.toggleFavorite. -/
inductive ToggleResult where
  | added
  | removed
  | rejected
deriving DecidableEq

/-- The effect of one WordlyApp.toggleFavorite call: its result, the new
in-memory favorites list, and the list written to storage (`none` when
the code returned without calling StorageManager.save). -/
structure ToggleOutcome where
  result : ToggleResult
  favorites : List String
  saved : Option (List String)
deriving DecidableEq

/-- WordlyApp.toggleFavorite acting on the favorites list: a present word
(indexOf greater than -1) is removed by splice and the list is saved; an
absent word is rejected without saving when the list has reached
MAX_FAVORITES_ITEMS, and otherwise pushed at the end and saved. -/
def toggleFavorite (word : String) (favorites : List String) : ToggleOutcome :=
  if word ∈ favorites then
    let next := favorites.erase word
    ⟨.removed, next, some next⟩
  else if MAX_FAVORITES_ITEMS ≤ favorites.length then
    ⟨.rejected, favorites, none⟩
  else
    let next := favorites ++ [word]
    ⟨.added, next, some next⟩

/-- The behaviour claimed for toggleFavorite: a present word is removed (and
the removal saved), a new word is rejected with no mutation and no save at
capacity and appended (and saved) below capacity, and two consecutive
toggles of the same word leave the membership of the list unchanged (stated
as a permutation of the original list). -/
def toggleFavoriteSpec (word : String) (favorites : List String) : Prop :=
  (word ∈ favorites →
      toggleFavorite word favorites =
        ⟨.removed, favorites.erase word, some (favorites.erase word)⟩ ∧
      word ∉ (toggleFavorite word favorites).favorites) ∧
  (word ∉ favorites → favorites.length = MAX_FAVORITES_ITEMS →
      toggleFavorite word favorites = ⟨.rejected, favorites, none⟩) ∧
  (word ∉ favorites → favorites.length < MAX_FAVORITES_ITEMS →
      toggleFavorite word favorites =
        ⟨.added, favorites ++ [word], some (favorites ++ [word])⟩) ∧
  ((toggleFavorite word
      (toggleFavorite word favorites).favorites).favorites.Perm favorites)

/-! ### The orchestrator state machine (WordlyApp.searchWord and
WordlyApp.handleSearchError, src/app.js lines 938-1009) -/

/-- The error taxonomy of the application, as displayed to the user. -/
inductive ErrorKind where
  | invalidInput
  | notFound
  | timeout
  | network
  | unknown
deriving DecidableEq

/-- The orchestrator states. The error state records the kind and, for
search failures, the cleaned word that was being looked up (the invalid
input error records no word). -/
inductive AppState where
  | idle
  | loading (word : String)
  | displaying (entry : Entry)
  | error (kind : ErrorKind) (word : Option String)
deriving DecidableEq

/-- WordlyApp.handleSearchError: the switch on the error message mapping it
to the displayed error panel, with the Unexpected Error default branch. -/
def handleSearchError (e : JsError) (word : String) : AppState :=
  if e.message = "WORD_NOT_FOUND" then .error .notFound (some word)
  else if e.message = "TIMEOUT" then .error .timeout (some word)
  else if e.message = "NETWORK_ERROR" then .error .network (some word)
  else .error .unknown (some word)

/-- The entry guard of WordlyApp.searchWord: an empty or whitespace-only
word shows the Invalid Input error and returns before any network call;
otherwise the word is trimmed and lower-cased and the lookup starts. The
second component is the word handed to the Lookup Client (`none` when no
request is issued). -/
def submit (word : String) : AppState × Option String :=
  if word = "" ∨ jsTrim word = "" then (.error .invalidInput none, none)
  else
    let cleanWord := jsToLower (jsTrim word)
    (.loading cleanWord, some cleanWord)

end Wordly

namespace Wordly

/-! ### Character and trim lemmas -/

/-- Lower-casing does not change whether a character is whitespace. -/
theorem jsWhitespace_jsLowerChar (c : Char) :
    jsWhitespace (jsLowerChar c) = jsWhitespace c := by
  unfold jsLowerChar
  split <;> rfl

/-- Each character is either fixed by jsLowerChar or sent to an ASCII
lower-case letter. -/
theorem jsLowerChar_cases (c : Char) :
    jsLowerChar c = c ∨
      jsLowerChar c ∈
        ['a', 'b', 'c', 'd', 'e', 'f', 'g', 'h', 'i', 'j', 'k', 'l', 'm',
         'n', 'o', 'p', 'q', 'r', 's', 't', 'u', 'v', 'w', 'x', 'y', 'z'] := by
  unfold jsLowerChar
  split <;> first | (left; rfl) | (right; decide)

/-- jsLowerChar is idempotent. -/
theorem jsLowerChar_idem (c : Char) :
    jsLowerChar (jsLowerChar c) = jsLowerChar c := by
  rcases jsLowerChar_cases c with h | h
  · rw [h]; exact h
  · simp only [List.mem_cons, List.not_mem_nil, or_false] at h
    rcases h with h|h|h|h|h|h|h|h|h|h|h|h|h|h|h|h|h|h|h|h|h|h|h|h|h|h <;>
      rw [h] <;> rfl

/-- A list whose head does not satisfy the predicate is unchanged by
dropWhile. -/
theorem dropWhile_eq_self_of_head {α : Type} (p : α → Bool) (l : List α)
    (h : ∀ a, l.head? = some a → p a = false) : l.dropWhile p = l := by
  cases l with
  | nil => rfl
  | cons a t => simp [List.dropWhile_cons, h a rfl]

/-- dropWhile is idempotent. -/
theorem dropWhile_dropWhile {α : Type} (p : α → Bool) (l : List α) :
    (l.dropWhile p).dropWhile p = l.dropWhile p := by
  apply dropWhile_eq_self_of_head
  intro a ha
  have h := List.head?_dropWhile_not p l
  rw [ha] at h
  exact h

/-- A cons unchanged by dropWhile has a head not satisfying the predicate. -/
theorem head_not_of_dropWhile_eq_self {α : Type} {p : α → Bool} {a : α}
    {t : List α} (h : (a :: t).dropWhile p = a :: t) : p a = false := by
  by_contra hcon
  rw [Bool.not_eq_false] at hcon
  rw [List.dropWhile_cons, if_pos hcon] at h
  have hlen := congrArg List.length h
  have hle := (List.dropWhile_sublist (l := t) p).length_le
  simp only [List.length_cons] at hlen
  omega

/-- jsTrimLeft is idempotent. -/
theorem jsTrimLeft_idem (s : List Char) :
    jsTrimLeft (jsTrimLeft s) = jsTrimLeft s :=
  dropWhile_dropWhile jsWhitespace s

/-- jsTrimRight is idempotent. -/
theorem jsTrimRight_idem (s : List Char) :
    jsTrimRight (jsTrimRight s) = jsTrimRight s := by
  unfold jsTrimRight
  rw [List.reverse_reverse, dropWhile_dropWhile]

/-- A list already trimmed on the left stays so after trimming the right. -/
theorem jsTrimLeft_jsTrimRight (s : List Char) (h : jsTrimLeft s = s) :
    jsTrimLeft (jsTrimRight s) = jsTrimRight s := by
  cases s with
  | nil => rfl
  | cons a t =>
      have pa : jsWhitespace a = false := head_not_of_dropWhile_eq_self h
      unfold jsTrimRight
      rw [List.reverse_cons, List.dropWhile_append]
      by_cases he : (t.reverse.dropWhile jsWhitespace).isEmpty = true
      · rw [if_pos he]
        simp only [List.dropWhile_cons, pa, Bool.false_eq_true, if_false,
          List.dropWhile_nil]
        apply dropWhile_eq_self_of_head
        intro b hb
        simp only [List.reverse_cons, List.reverse_nil, List.nil_append,
          List.head?_cons, Option.some.injEq] at hb
        rw [← hb]
        exact pa
      · rw [if_neg he, List.reverse_append, List.reverse_cons,
          List.reverse_nil, List.nil_append, List.singleton_append]
        apply dropWhile_eq_self_of_head
        intro b hb
        simp only [List.head?_cons, Option.some.injEq] at hb
        rw [← hb]
        exact pa

/-- jsTrimChars is idempotent. -/
theorem jsTrimChars_idem (s : List Char) :
    jsTrimChars (jsTrimChars s) = jsTrimChars s := by
  unfold jsTrimChars
  rw [jsTrimLeft_jsTrimRight (jsTrimLeft s) (jsTrimLeft_idem s),
    jsTrimRight_idem]

/-- jsTrimLeft commutes with lower-casing. -/
theorem jsTrimLeft_map_lower (s : List Char) :
    jsTrimLeft (s.map jsLowerChar) = (jsTrimLeft s).map jsLowerChar := by
  have hfun : jsWhitespace ∘ jsLowerChar = jsWhitespace := by
    funext c
    simp only [Function.comp_apply, jsWhitespace_jsLowerChar]
  unfold jsTrimLeft
  rw [List.dropWhile_map, hfun]

/-- jsTrimRight commutes with lower-casing. -/
theorem jsTrimRight_map_lower (s : List Char) :
    jsTrimRight (s.map jsLowerChar) = (jsTrimRight s).map jsLowerChar := by
  have hfun : jsWhitespace ∘ jsLowerChar = jsWhitespace := by
    funext c
    simp only [Function.comp_apply, jsWhitespace_jsLowerChar]
  unfold jsTrimRight
  rw [← List.map_reverse, List.dropWhile_map, hfun, List.map_reverse]

/-- jsTrimChars commutes with lower-casing. -/
theorem jsTrimChars_map_lower (s : List Char) :
    jsTrimChars (s.map jsLowerChar) = (jsTrimChars s).map jsLowerChar := by
  unfold jsTrimChars
  rw [jsTrimLeft_map_lower, jsTrimRight_map_lower]

/-- String-level: jsTrim is idempotent. -/
theorem jsTrim_jsTrim (s : String) : jsTrim (jsTrim s) = jsTrim s := by
  unfold jsTrim
  exact congrArg String.mk (jsTrimChars_idem s.data)

/-- String-level: jsTrim commutes with jsToLower. -/
theorem jsTrim_jsToLower (s : String) :
    jsTrim (jsToLower s) = jsToLower (jsTrim s) := by
  unfold jsTrim jsToLower
  exact congrArg String.mk (jsTrimChars_map_lower s.data)

/-- String-level: jsToLower is idempotent. -/
theorem jsToLower_jsToLower (s : String) :
    jsToLower (jsToLower s) = jsToLower s := by
  unfold jsToLower
  apply congrArg String.mk
  rw [List.map_map]
  apply List.map_congr_left
  intro c _
  exact jsLowerChar_idem c

/-- String-level: jsToLower sends only the empty string to the empty
string. -/
theorem jsToLower_eq_empty (s : String) (h : jsToLower s = "") : s = "" := by
  unfold jsToLower at h
  have hdata : s.data.map jsLowerChar = [] := congrArg String.data h
  rw [List.map_eq_nil_iff] at hdata
  exact congrArg String.mk hdata

end Wordly

namespace Wordly

/-! ### Aggregation lemmas -/

/-- Membership after folding addUnique: exactly the old elements and the
newly folded ones. -/
theorem mem_foldl_addUnique (l : List String) :
    ∀ (acc : List String) (x : String),
      x ∈ l.foldl addUnique acc ↔ x ∈ acc ∨ x ∈ l := by
  induction l with
  | nil => simp
  | cons a t ih =>
      intro acc x
      rw [List.foldl_cons, ih]
      unfold addUnique
      by_cases ha : a ∈ acc
      · rw [if_pos ha]
        constructor
        · rintro (hx | hx)
          · exact Or.inl hx
          · exact Or.inr (List.mem_cons_of_mem a hx)
        · rintro (hx | hx)
          · exact Or.inl hx
          · rcases List.mem_cons.mp hx with rfl | hx
            · exact Or.inl ha
            · exact Or.inr hx
      · rw [if_neg ha]
        simp only [List.mem_append, List.mem_singleton, List.mem_cons]
        tauto

/-- Folding addUnique preserves the no-duplicates invariant. -/
theorem nodup_foldl_addUnique (l : List String) :
    ∀ acc : List String, acc.Nodup → (l.foldl addUnique acc).Nodup := by
  induction l with
  | nil => exact fun acc h => h
  | cons a t ih =>
      intro acc hacc
      rw [List.foldl_cons]
      apply ih
      unfold addUnique
      by_cases ha : a ∈ acc
      · rwa [if_pos ha]
      · rw [if_neg ha]
        simp [List.nodup_append, hacc, List.disjoint_singleton, ha]

/-- Folding addUnique over a stream appends, after the accumulator, the
first-seen deduplication of the streamed elements not already present. -/
theorem foldl_addUnique_eq_dedup (l : List String) :
    ∀ acc : List String,
      l.foldl addUnique acc =
        acc ++ dedupFirstSeen (l.filter (fun x => x ∉ acc)) := by
  induction l with
  | nil => intro acc; simp [dedupFirstSeen]
  | cons a t ih =>
      intro acc
      rw [List.foldl_cons]
      by_cases ha : a ∈ acc
      · have h1 : addUnique acc a = acc := by simp [addUnique, ha]
        rw [h1, ih]
        have hfa : (decide (a ∉ acc)) = false := by simp [ha]
        rw [List.filter_cons, hfa]
        simp
      · have h1 : addUnique acc a = acc ++ [a] := by simp [addUnique, ha]
        rw [h1, ih]
        have hfa : (decide (a ∉ acc)) = true := by simp [ha]
        rw [List.filter_cons, hfa]
        simp only [if_true]
        rw [dedupFirstSeen]
        have hpred :
            t.filter (fun x => x ∉ acc ++ [a]) =
              (t.filter (fun x => x ∉ acc)).filter (fun y => y ≠ a) := by
          rw [List.filter_filter]
          apply List.filter_congr
          intro x _
          by_cases h1 : x = a
          · simp [h1]
          · by_cases h2 : x ∈ acc <;> simp [h1, h2]
        rw [hpred]
        simp

/-- The nested fold of collectSynonyms and collectAntonyms equals the flat
fold of addUnique over the corresponding occurrence stream. -/
theorem collect_eq_foldl_stream (g₁ : Meaning → List String)
    (g₂ : Definition → List String) (meanings : List Meaning) :
    ∀ acc : List String,
      meanings.foldl
        (fun acc meaning =>
          meaning.definitions.foldl (fun a d => (g₂ d).foldl addUnique a)
            ((g₁ meaning).foldl addUnique acc))
        acc =
      (meanings.flatMap (fun m => g₁ m ++ m.definitions.flatMap g₂)).foldl
        addUnique acc := by
  have hdefs : ∀ (defs : List Definition) (acc : List String),
      defs.foldl (fun a d => (g₂ d).foldl addUnique a) acc =
        (defs.flatMap g₂).foldl addUnique acc := by
    intro defs
    induction defs with
    | nil => intro acc; rfl
    | cons d t ihd =>
        intro acc
        rw [List.foldl_cons, ihd, List.flatMap_cons, List.foldl_append]
  induction meanings with
  | nil => intro acc; rfl
  | cons m t ih =>
      intro acc
      rw [List.foldl_cons, ih, List.flatMap_cons, List.foldl_append,
        List.foldl_append, hdefs]

end Wordly

namespace Wordly

/-! ### History lemmas -/

/-- addToHistory is remove-prepend-truncate in one step. -/
theorem addToHistory_eq_take (word : String) (history : List String) :
    addToHistory word history =
      (word :: history.filter (fun w => w ≠ word)).take MAX_HISTORY_ITEMS := by
  simp only [addToHistory]
  by_cases h : MAX_HISTORY_ITEMS <
      (word :: history.filter (fun w => w ≠ word)).length
  · rw [if_pos h]
  · rw [if_neg h, List.take_of_length_le (Nat.not_lt.mp h)]

/-- The history list produced by addToHistory never exceeds the capacity. -/
theorem length_addToHistory_le (word : String) (history : List String) :
    (addToHistory word history).length ≤ MAX_HISTORY_ITEMS := by
  rw [addToHistory_eq_take, List.length_take]
  exact Nat.min_le_left _ _

end Wordly

namespace Wordly

/-- C2: addToHistory removes every existing occurrence of the word,
prepends it, and truncates to capacity 50 from the tail; consequently the
head of the new history is the word and the word occurs exactly once. -/
theorem claim_C2_addToHistory (word : String) (history : List String) :
    addToHistory word history =
      (word :: history.filter (fun w => w ≠ word)).take MAX_HISTORY_ITEMS ∧
    (addToHistory word history).head? = some word ∧
    (addToHistory word history).count word = 1 := by
  have h0 : word ∉ history.filter (fun w => w ≠ word) := by simp
  have htake : (word :: history.filter (fun w => w ≠ word)).take
      MAX_HISTORY_ITEMS =
      word :: (history.filter (fun w => w ≠ word)).take 49 := rfl
  refine ⟨addToHistory_eq_take word history, ?_, ?_⟩
  · rw [addToHistory_eq_take, htake]
    rfl
  · rw [addToHistory_eq_take, htake, List.count_cons_self]
    have hsub : List.count word
        ((history.filter (fun w => w ≠ word)).take 49) = 0 := by
      have hle := (List.take_sublist 49
        (history.filter (fun w => w ≠ word))).count_le word
      rw [List.count_eq_zero_of_not_mem h0] at hle
      omega
    omega

/-- C3: starting from a history of length at most 50, no finite sequence of
addToHistory calls can push the length beyond 50. -/
theorem claim_C3_history_capacity (words : List String) :
    ∀ history : List String, history.length ≤ MAX_HISTORY_ITEMS →
      (addAllToHistory words history).length ≤ MAX_HISTORY_ITEMS := by
  induction words with
  | nil => exact fun _ h => h
  | cons w t ih =>
      intro history _
      exact ih (addToHistory w history) (length_addToHistory_le w history)

/-- Closed instance of C3 at a concrete starting history and word
sequence. -/
theorem claim_C3_witness :
    ([] : List String).length ≤ MAX_HISTORY_ITEMS ∧
      (addAllToHistory ["hello", "world", "hello"] []).length ≤
        MAX_HISTORY_ITEMS :=
  ⟨by decide, claim_C3_history_capacity ["hello", "world", "hello"] []
    (by decide)⟩

/-- C5: the synonym and antonym aggregations equal the first-seen
deduplication of the corresponding occurrence streams (meaning-level and
definition-level fields across all meanings): each collected string occurs
exactly once, in first-seen order, and the collected strings are exactly
the streamed ones. -/
theorem claim_C5_aggregation (meanings : List Meaning) :
    collectSynonyms meanings = dedupFirstSeen (synonymStream meanings) ∧
    (collectSynonyms meanings).Nodup ∧
    (∀ s, s ∈ collectSynonyms meanings ↔ s ∈ synonymStream meanings) ∧
    collectAntonyms meanings = dedupFirstSeen (antonymStream meanings) ∧
    (collectAntonyms meanings).Nodup ∧
    (∀ s, s ∈ collectAntonyms meanings ↔ s ∈ antonymStream meanings) := by
  have hsyn : collectSynonyms meanings =
      (synonymStream meanings).foldl addUnique [] :=
    collect_eq_foldl_stream (fun m => m.synonyms) (fun d => d.synonyms)
      meanings []
  have hant : collectAntonyms meanings =
      (antonymStream meanings).foldl addUnique [] :=
    collect_eq_foldl_stream (fun m => m.antonyms) (fun d => d.antonyms)
      meanings []
  have hfilter : ∀ l : List String,
      l.filter (fun x => x ∉ ([] : List String)) = l := by
    intro l
    apply List.filter_eq_self.mpr
    intro a _
    simp
  refine ⟨?_, ?_, ?_, ?_, ?_, ?_⟩
  · rw [hsyn, foldl_addUnique_eq_dedup, hfilter, List.nil_append]
  · rw [hsyn]
    exact nodup_foldl_addUnique _ [] List.nodup_nil
  · intro s
    rw [hsyn, mem_foldl_addUnique]
    simp
  · rw [hant, foldl_addUnique_eq_dedup, hfilter, List.nil_append]
  · rw [hant]
    exact nodup_foldl_addUnique _ [] List.nodup_nil
  · intro s
    rw [hant, mem_foldl_addUnique]
    simp

end Wordly

namespace Wordly

/-- C1: on a well-formed favorites list (no duplicates, within capacity),
toggleFavorite removes a present word, rejects a new word at capacity
without touching the list or storage, appends a new word below capacity,
and toggling the same word twice restores the original membership. -/
theorem claim_C1_toggleFavorite (word : String) (favorites : List String)
    (hnodup : favorites.Nodup)
    (hlen : favorites.length ≤ MAX_FAVORITES_ITEMS) :
    toggleFavoriteSpec word favorites := by
  have hM : MAX_FAVORITES_ITEMS = 100 := rfl
  refine ⟨?_, ?_, ?_, ?_⟩
  · intro hmem
    constructor
    · simp [toggleFavorite, hmem]
    · simp [toggleFavorite, hmem, List.Nodup.mem_erase_iff hnodup]
  · intro hmem hcap
    simp [toggleFavorite, hmem, hcap]
  · intro hmem hlt
    simp [toggleFavorite, hmem, Nat.not_le.mpr hlt]
  · by_cases hmem : word ∈ favorites
    · have h1 : (toggleFavorite word favorites).favorites =
          favorites.erase word := by
        simp [toggleFavorite, hmem]
      rw [h1]
      have hmem2 : word ∉ favorites.erase word := by
        simp [List.Nodup.mem_erase_iff hnodup]
      have hlt : (favorites.erase word).length < MAX_FAVORITES_ITEMS := by
        have he := List.length_erase_of_mem hmem
        have hpos : 0 < favorites.length := List.length_pos_of_mem hmem
        omega
      have h2 : (toggleFavorite word (favorites.erase word)).favorites =
          favorites.erase word ++ [word] := by
        simp [toggleFavorite, hmem2, Nat.not_le.mpr hlt]
      rw [h2]
      exact (List.perm_append_singleton word _).trans
        (List.perm_cons_erase hmem).symm
    · by_cases hcap : MAX_FAVORITES_ITEMS ≤ favorites.length
      · have h1 : (toggleFavorite word favorites).favorites = favorites := by
          simp [toggleFavorite, hmem, hcap]
        rw [h1, h1]
      · have h1 : (toggleFavorite word favorites).favorites =
            favorites ++ [word] := by
          simp [toggleFavorite, hmem, hcap]
        rw [h1]
        have hmem2 : word ∈ favorites ++ [word] := by simp
        have h2 : (toggleFavorite word (favorites ++ [word])).favorites =
            favorites := by
          simp only [toggleFavorite, if_pos hmem2]
          rw [List.erase_append_right _ hmem]
          simp
        rw [h2]

/-- Closed instance of C1 at a concrete word and favorites list. -/
theorem claim_C1_witness :
    (["a"] : List String).Nodup ∧
      (["a"] : List String).length ≤ MAX_FAVORITES_ITEMS ∧
      toggleFavoriteSpec "b" ["a"] :=
  ⟨by decide, by decide,
    claim_C1_toggleFavorite "b" ["a"] (by decide) (by decide)⟩

/-- C6: for any codec satisfying the JSON round-trip contract, saving a
value and loading its key returns the value, and loading a key that was
never saved returns the provided default. -/
theorem claim_C6_storage_roundtrip {α : Type} (codec : JsonCodec α)
    (hparse : ∀ v, codec.parse (codec.stringify v) = some v)
    (hnonempty : ∀ v, codec.stringify v ≠ "")
    (store : List (String × String)) (key missingKey : String)
    (value dflt : α) (hmissing : ∀ kv ∈ store, kv.1 ≠ missingKey) :
    storageLoad codec (storageSave codec store key value) key dflt = value ∧
    storageLoad codec store missingKey dflt = dflt := by
  constructor
  · have hget : getItem (storageSave codec store key value) key =
        some (codec.stringify value) := by
      unfold storageSave setItem getItem
      rw [List.find?_cons_of_pos _ (by simp)]
      rfl
    unfold storageLoad
    rw [hget]
    simp only [if_neg (hnonempty value), hparse value, Option.getD_some]
  · have hget : getItem store missingKey = none := by
      unfold getItem
      rw [List.find?_eq_none.mpr (fun kv hkv => by simp [hmissing kv hkv])]
      rfl
    unfold storageLoad
    rw [hget]

/-- Closed instance of C6 with the boolean theme codec. -/
theorem claim_C6_witness :
    (∀ v, boolCodec.parse (boolCodec.stringify v) = some v) ∧
      (∀ v, boolCodec.stringify v ≠ "") ∧
      (∀ kv ∈ ([] : List (String × String)), kv.1 ≠ "wordly_favorites") ∧
      storageLoad boolCodec
          (storageSave boolCodec [] "wordly_theme" true) "wordly_theme"
          false = true ∧
      storageLoad boolCodec [] "wordly_favorites" false = false := by
  have h := claim_C6_storage_roundtrip boolCodec (by decide) (by decide)
    [] "wordly_theme" "wordly_favorites" true false (by simp)
  exact ⟨by decide, by decide, by simp, h.1, h.2⟩

end Wordly

namespace Wordly

/-- C4 evaluation: HTTP 404 maps to WORD_NOT_FOUND and transport failures
and malformed bodies map to NETWORK_ERROR as claimed, but a non-404
non-success status (here 500) also maps to NETWORK_ERROR, because the
thrown API_ERROR is caught by the same try/catch and rethrown as
NETWORK_ERROR; the orchestrator therefore shows the Network error panel,
not the generic API (Unknown) one the claim states. -/
theorem claim_C4_status_mapping_evaluation :
    fetchWord (.response 404 (some [])) = .error ⟨"Error", "WORD_NOT_FOUND"⟩ ∧
    fetchWord .transportFailure = .error ⟨"Error", "NETWORK_ERROR"⟩ ∧
    fetchWord (.response 200 none) = .error ⟨"Error", "NETWORK_ERROR"⟩ ∧
    fetchWord (.response 500 (some [])) = .error ⟨"Error", "NETWORK_ERROR"⟩ ∧
    handleSearchError ⟨"Error", "NETWORK_ERROR"⟩ "hello" =
      .error .network (some "hello") :=
  ⟨rfl, rfl, rfl, rfl, by decide⟩

/-- C7: an input word that is empty or whitespace-only makes submit show
the Invalid Input error and issue no request to the Lookup Client. -/
theorem claim_C7_invalid_input (word : String) (h : jsTrim word = "") :
    submit word = (.error .invalidInput none, none) := by
  unfold submit
  rw [if_pos (Or.inr h)]

/-- Closed instance of C7 on a whitespace-only input. -/
theorem claim_C7_witness :
    jsTrim "   " = "" ∧
      submit "   " = (.error .invalidInput none, none) :=
  ⟨by decide, claim_C7_invalid_input "   " (by decide)⟩

/-- C8: the configured timeout is 10000 ms; the abort outcome fired by the
timeout (which cancels the in-flight request) makes fetchWord fail with
TIMEOUT, and the orchestrator then enters the Error state with the timeout
kind and the searched word. -/
theorem claim_C8_timeout_path (word : String) :
    API_TIMEOUT_MS = 10000 ∧
    fetchWord .aborted = .error ⟨"Error", "TIMEOUT"⟩ ∧
    handleSearchError ⟨"Error", "TIMEOUT"⟩ word = .error .timeout (some word) :=
  ⟨rfl, rfl, by simp [handleSearchError]⟩

/-- C9: a successful response whose JSON body is the empty array makes
fetchWord return the absent first element rather than an entry or an
error, so the fetch contract of one LexicalEntry or a failure is not met
in this case. -/
theorem claim_C9_empty_success_body :
    fetchWord (.response 200 (some [])) = .ok none := rfl

/-- C10: a word accepted by the searchWord guard is handed to the Lookup
Client in trimmed, lower-cased form, and that form is non-empty, already
trimmed and already lower-cased: the precondition of the client holds. -/
theorem claim_C10_normalized_word (word : String) (h : jsTrim word ≠ "") :
    (submit word).2 = some (jsToLower (jsTrim word)) ∧
    (submit word).1 = .loading (jsToLower (jsTrim word)) ∧
    jsToLower (jsTrim word) ≠ "" ∧
    jsTrim (jsToLower (jsTrim word)) = jsToLower (jsTrim word) ∧
    jsToLower (jsToLower (jsTrim word)) = jsToLower (jsTrim word) := by
  have hcond : ¬(word = "" ∨ jsTrim word = "") := by
    rintro (rfl | hw)
    · exact h rfl
    · exact h hw
  refine ⟨?_, ?_, ?_, ?_, ?_⟩
  · unfold submit
    rw [if_neg hcond]
  · unfold submit
    rw [if_neg hcond]
  · intro hempty
    exact h (jsToLower_eq_empty _ hempty)
  · rw [jsTrim_jsToLower, jsTrim_jsTrim]
  · exact jsToLower_jsToLower _

/-- Closed instance of C10 on an input needing both trim and
lower-casing. -/
theorem claim_C10_witness :
    jsTrim " Hello " ≠ "" ∧
      ((submit " Hello ").2 = some (jsToLower (jsTrim " Hello ")) ∧
        (submit " Hello ").1 = .loading (jsToLower (jsTrim " Hello ")) ∧
        jsToLower (jsTrim " Hello ") ≠ "" ∧
        jsTrim (jsToLower (jsTrim " Hello ")) = jsToLower (jsTrim " Hello ") ∧
        jsToLower (jsToLower (jsTrim " Hello ")) =
          jsToLower (jsTrim " Hello ")) :=
  ⟨by decide, claim_C10_normalized_word " Hello " (by decide)⟩

end Wordly
